/-
Verification of the numeric Kerr ray-tracing module (kerr_raytracing_num.py).

The module integrates null geodesics in Kerr spacetime.  Its numerically
substantive core is embedded here:

* `dxdtau`   — the 5-component geodesic right-hand side (t, r, theta, phi, sigma);
* `jac`      — its exact Jacobian;
* `eventR`, `eventTH` — the radial / polar turning-point event functions;
* `raytraceValidate` / `raytraceNum` — the batch-entry input validation
  (`raytrace_num`, lines 24-42 of the source);
* `initGeo` and `runLoop` / `integrate_geo_single` — the per-ray
  initialization and the segmented sign-flip control loop of
  `integrate_geo_single`.

Floating-point numbers are modelled as real numbers.  The external ODE
solver (`scipy.integrate.solve_ivp`) is not part of the repository; the
control loop is therefore parametrized by an abstract `Solver` producing
one integration segment per call, exactly as the loop consumes `sol`
objects: a status (1 = halted on a terminal event), the sample arrays
`sol.t` / `sol.y`, and the two event-time arrays `sol.t_events[0]`
(polar, `eventTH`) and `sol.t_events[1]` (radial, `eventR`).
-/
import Mathlib

noncomputable section

/-- Module constant `ROUT = 1000`. -/
def ROUT : ℝ := 1000

/-- Module constant `NGEO = 100`. -/
def NGEO : ℕ := 100

/-- Module constant `MINSPIN = 1.e-6`. -/
def MINSPIN : ℝ := 1e-6

/-- Module constant `EP = 1.e-12`. -/
def EP : ℝ := 1e-12

/-- The 5-component phase-space vector `x = (t, r, theta, phi, sigma)`,
indexed exactly as the source indexes `x[0] .. x[4]`. -/
abbrev Vec5 := Fin 5 → ℝ

/-- The geodesic right-hand side `dxdtau(tau, x, a, lam, eta, sr, sth)`
(source lines 86-108), transcribed term by term.  The potentials are
clamped at zero by the source's `if R<0: R=0.` / `if TH<0: TH=0.`. -/
def dxdtau (tau : ℝ) (x : Vec5) (a lam eta sr sth : ℝ) : Vec5 :=
  let r := x 1
  let th := x 2
  let Delta := r ^ 2 - 2 * r + a ^ 2
  let Sigma := r ^ 2 + a ^ 2 * Real.cos th ^ 2
  let R0 := (r ^ 2 + a ^ 2 - a * lam) ^ 2 - Delta * (eta + (lam - a) ^ 2)
  let TH0 := eta + (a * Real.cos th) ^ 2 - (lam / Real.tan th) ^ 2
  let R := if R0 < 0 then 0 else R0
  let TH := if TH0 < 0 then 0 else TH0
  let dt := (r ^ 2 + a ^ 2) * (r ^ 2 + a ^ 2 - a * lam) / Delta
    + a * (lam - a * Real.sin th ^ 2)
  let dr := sr * Real.sqrt R
  let dth := sth * Real.sqrt TH
  let dph := a * (r ^ 2 + a ^ 2 - a * lam) / Delta + lam / Real.sin th ^ 2 - a
  let dsig := Sigma
  ![dt, dr, dth, dph, dsig]

/-- The clamped radial potential exactly as computed inside `dxdtau`:
`R = (r²+a²-aλ)² - Δ(η+(λ-a)²)`, set to zero when negative. -/
def Rclamp (a lam eta r : ℝ) : ℝ :=
  let Delta := r ^ 2 - 2 * r + a ^ 2
  let R0 := (r ^ 2 + a ^ 2 - a * lam) ^ 2 - Delta * (eta + (lam - a) ^ 2)
  if R0 < 0 then 0 else R0

/-- The clamped polar potential exactly as computed inside `dxdtau`:
`TH = η + (a cos θ)² - (λ/tan θ)²`, set to zero when negative. -/
def THclamp (a lam eta th : ℝ) : ℝ :=
  let TH0 := eta + (a * Real.cos th) ^ 2 - (lam / Real.tan th) ^ 2
  if TH0 < 0 then 0 else TH0

/-- The exact Jacobian `jac(tau, x, a, lam, eta, sr, sth)` (source lines
110-156); `jac ... i j` is the source's `jacout[i,j]`. -/
def jac (tau : ℝ) (x : Vec5) (a lam eta sr sth : ℝ) : Fin 5 → Fin 5 → ℝ :=
  let r := x 1
  let th := x 2
  let Delta := r ^ 2 - 2 * r + a ^ 2
  let R0 := (r ^ 2 + a ^ 2 - a * lam) ^ 2 - Delta * (eta + (lam - a) ^ 2)
  let TH0 := eta + (a * Real.cos th) ^ 2 - (lam / Real.tan th) ^ 2
  let R := if R0 < 0 then 0 else R0
  let TH := if TH0 < 0 then 0 else TH0
  ![![0,
      (-2 * a * lam + 4 * a ^ 2 * r + 4 * r ^ 3) / Delta
        - (2 * r - 2) * (a ^ 4 - 2 * a * lam * r + 2 * a ^ 2 * r ^ 2 + r ^ 4) / Delta ^ 2,
      -2 * a ^ 2 * Real.cos th * Real.sin th, 0, 0],
    ![0,
      sr * (-(2 * r - 2) * (eta + (lam - a) ^ 2) + 4 * r * (a ^ 2 - a * lam + r ^ 2))
        / (2 * Real.sqrt R),
      0, 0, 0],
    ![0, 0,
      sth * ((2 * lam ^ 2) / (Real.tan th * Real.sin th ^ 2)
        - 2 * a ^ 2 * Real.cos th * Real.sin th) / (2 * Real.sqrt TH),
      0, 0],
    ![0,
      2 * a * (a ^ 2 + a * lam * (r - 1) - r ^ 2) / Delta ^ 2,
      -2 * lam / (Real.tan th * Real.sin th ^ 2), 0, 0],
    ![0, 2 * r, -2 * a ^ 2 * Real.cos th * Real.sin th, 0, 0]]

/-- Radial turning-point event `eventR` (source lines 158-167): the
unclamped radial potential, evaluated at the current state. -/
def eventR (t : ℝ) (x : Vec5) (a lam eta sr sth : ℝ) : ℝ :=
  let r := x 1
  let Delta := r ^ 2 - 2 * r + a ^ 2
  (r ^ 2 + a ^ 2 - a * lam) ^ 2 - Delta * (eta + (lam - a) ^ 2)

/-- Polar turning-point event `eventTH` (source lines 170-180): the
unclamped polar potential, overridden to the constant 1 when
`a < MINSPIN` and `eta < EP` (near-equatorial, near-zero-spin motion). -/
def eventTH (t : ℝ) (x : Vec5) (a lam eta sr sth : ℝ) : ℝ :=
  let th := x 2
  let TH := eta + (a * Real.cos th) ^ 2 - (lam / Real.tan th) ^ 2
  if a < MINSPIN ∧ eta < EP then 1 else TH

/-- The conserved-quantity mapper: image-plane impact parameters plus
observer data to the geodesic constants `(lambda, eta)`.  The source has
no single named function for it; these are the formulas used verbatim at
both call sites (source lines 39-40 and 196-197). -/
def conservedLamEta (alpha beta th_o a : ℝ) : ℝ × ℝ :=
  (-alpha * Real.sin th_o, (alpha ^ 2 - a ^ 2) * Real.cos th_o ^ 2 + beta ^ 2)

/-- The batch-boundary computation of the `lam` and `eta` arrays
(source lines 39-40): `lam = -alpha*sin(th_o)`,
`eta = (alpha² - a²)cos²(th_o) + beta²`, elementwise. -/
def batchLamEta (a th_o : ℝ) (alpha beta : List ℝ) : List ℝ × List ℝ :=
  (alpha.map fun al => -al * Real.sin th_o,
   (alpha.zip beta).map fun p => (p.1 ^ 2 - a ^ 2) * Real.cos th_o ^ 2 + p.2 ^ 2)

open Classical in
/-- The input-validation prefix of `raytrace_num` (source lines 24-42),
in source order: spin range, inclination range, equal array lengths, and
the degenerate `eta == 0` rejection, each a fatal error. -/
def raytraceValidate (a th_o : ℝ) (alpha beta : List ℝ) :
    Except String (List ℝ × List ℝ) :=
  if ¬(0 ≤ a ∧ a < 1) then .error "a should be float in range [0,1)"
  else if ¬(0 < th_o ∧ th_o ≤ Real.pi / 2) then .error "th_o should be float in range (0,pi/2)"
  else if alpha.length ≠ beta.length then .error "alpha, beta are different lengths!"
  else if ∃ e ∈ (batchLamEta a th_o alpha beta).2, e = 0 then
    .error "there are points where eta is exactly 0!"
  else .ok (batchLamEta a th_o alpha beta)

/-- The batch entry point `raytrace_num`: validation, then per-pixel
integration.  The per-pixel work (which the source performs with an
abstract analytic `taumax` and `integrate_geo_single`) is abstracted as
the parameter `integrate`; the claims about this function concern only
the validation barrier in front of it. -/
def raytraceNum (integrate : ℝ → ℝ → Option (List ℝ × List Vec5)) (a th_o : ℝ)
    (alpha beta : List ℝ) : Except String (List (Option (List ℝ × List Vec5))) :=
  match raytraceValidate a th_o alpha beta with
  | .error e => .error e
  | .ok _ => .ok ((alpha.zip beta).map fun p => integrate p.1 p.2)

/-- The data produced by the initialization prefix of
`integrate_geo_single` (source lines 189-207). -/
structure InitData where
  sr : ℤ
  sth : ℤ
  bb : ℝ
  ll : ℝ
  ee : ℝ
  x0 : Vec5
  t0 : ℝ
  tmax : ℝ
  maxStep : ℝ
  minStep : ℝ

/-- Ray initialization (source lines 189-207): `sr = 1`,
`sth = int(sign(bb))` with `0` replaced by `1`, the degenerate-beta
nudge `bb = sth*1e-6` applied when `|bb| < 1e-6` and `th_o != pi/2`,
the conserved quantities from the (possibly nudged) `bb`, the initial
state `x0 = (0, r_o, th_o, 0, 0)` at `t0 = 0`, and the step bounds. -/
def initGeo (a th_o r_o aa bb taumax : ℝ) (ngeo : ℕ) : InitData :=
  let sr : ℤ := 1
  let sgn : ℤ := if 0 < bb then 1 else if bb < 0 then -1 else 0
  let sth : ℤ := if sgn = 0 then 1 else sgn
  let bb1 : ℝ := if |bb| < 1e-6 ∧ th_o ≠ Real.pi / 2 then (sth : ℝ) * 1e-6 else bb
  let ll : ℝ := -aa * Real.sin th_o
  let ee : ℝ := (aa ^ 2 - a ^ 2) * Real.cos th_o ^ 2 + bb1 ^ 2
  let tmax : ℝ := -taumax
  { sr := sr, sth := sth, bb := bb1, ll := ll, ee := ee,
    x0 := ![0, r_o, th_o, 0, 0], t0 := 0, tmax := tmax,
    maxStep := |tmax / (ngeo : ℝ)|, minStep := |tmax / ((ngeo : ℝ) * 100)| }

/-- One `solve_ivp` result as the control loop consumes it: `status`
(1 = halted on a terminal event), the sample times `sol.t`, the state
columns `sol.y`, and the event-time arrays `sol.t_events[0]` (polar,
`eventTH`) and `sol.t_events[1]` (radial, `eventR`). -/
structure SolResult where
  status : ℤ
  ts : List ℝ
  ys : List Vec5
  tEventsTH : List ℝ
  tEventsR : List ℝ

/-- An abstract ODE-solver segment: from a start time, start state and
the current motion-direction signs `(sr, sth)` (the only loop-varying
arguments of the source's `solve_ivp` call) to one integration segment. -/
abbrev Solver := ℝ → Vec5 → ℤ → ℤ → SolResult

/-- The mutable state of the `while True` loop of `integrate_geo_single`
(source lines 199-250), plus two instrumentation fields: `segs` is the
`ts`/`xs` accumulator pair, and `calls` records the `(sr, sth)` pair
passed to each solver call. -/
structure LoopState where
  t : ℝ
  x : Vec5
  sr : ℤ
  sth : ℤ
  nswitch : ℕ
  segs : List (List ℝ × List Vec5)
  calls : List (ℤ × ℤ)

/-- The last two entries of a list (python `l[-1], l[-2]`), or `none`
when the list has fewer than two entries (python raises `IndexError`). -/
def last2 {α : Type} (l : List α) : Option (α × α) :=
  match l.reverse with
  | a :: b :: _ => some (a, b)
  | _ => none

/-- Appending one solver segment to the accumulators
(`ts.append(sol.t); xs.append(sol.y)`), recording the call's signs. -/
def appendSeg (s : LoopState) (sol : SolResult) : LoopState :=
  { s with segs := s.segs ++ [(sol.ts, sol.ys)], calls := s.calls ++ [(s.sr, s.sth)] }

/-- The event-handling tail of a loop iteration (source lines 226-248):
take `t, x` from the last sample and `tm1, xm1` from the one before,
flip `sr` when the radial event array is nonempty and `sth` when the
polar event array is nonempty, retreat by `fac = 1e-8` of the last step,
and increment `nswitch`. -/
def contState (sol : SolResult) (s : LoopState) (tl tp : ℝ) (yl yp : Vec5) : LoopState :=
  { t := tl - (1e-8 : ℝ) * (tl - tp),
    x := fun i => yl i - (1e-8 : ℝ) * (yl i - yp i),
    sr := if sol.tEventsR.isEmpty then s.sr else -s.sr,
    sth := if sol.tEventsTH.isEmpty then s.sth else -s.sth,
    nswitch := s.nswitch + 1,
    segs := s.segs ++ [(sol.ts, sol.ys)],
    calls := s.calls ++ [(s.sr, s.sth)] }

/-- The `while True` loop of `integrate_geo_single` (source lines
210-250): run a segment, append it, stop once `nswitch > 10`, otherwise
handle a terminal event (`status == 1`) by flipping signs, retreating,
and resuming; stop on any other status.  `none` models the python
`IndexError` on `sol.t[-2]` when an event segment has under two samples. -/
def runLoop (solver : Solver) (s : LoopState) : Option LoopState :=
  let sol := solver s.t s.x s.sr s.sth
  if hcap : 10 < s.nswitch then some (appendSeg s sol)
  else if sol.status = 1 then
    match last2 sol.ts, last2 sol.ys with
    | some (tl, tp), some (yl, yp) => runLoop solver (contState sol s tl tp yl yp)
    | _, _ => none
  else some (appendSeg s sol)
termination_by 11 - s.nswitch
decreasing_by simp [contState]; omega

/-- The loop state entering the `while True` loop: the initial ray data
with `nswitch = 0` and empty accumulators. -/
def initLoopState (a th_o r_o aa bb taumax : ℝ) (ngeo : ℕ) : LoopState :=
  let d := initGeo a th_o r_o aa bb taumax ngeo
  { t := d.t0, x := d.x0, sr := d.sr, sth := d.sth, nswitch := 0, segs := [], calls := [] }

/-- `integrate_geo_single` (source lines 184-259): initialize, run the
segmented loop, and concatenate the accumulated segments in order
(`np.concatenate(ts)` / `np.concatenate(xs, axis=1)`). -/
def integrate_geo_single (solver : Solver) (a th_o r_o aa bb taumax : ℝ) (ngeo : ℕ) :
    Option (List ℝ × List Vec5) :=
  match runLoop solver (initLoopState a th_o r_o aa bb taumax ngeo) with
  | none => none
  | some s => some ((s.segs.map Prod.fst).flatten, (s.segs.map Prod.snd).flatten)

/-- A solver is well-formed when every event-terminated segment carries
at least two sample points, as `solve_ivp` segments do (the start point
plus the event root). -/
def WellFormedSolver (solver : Solver) : Prop :=
  ∀ t x sr sth, (solver t x sr sth).status = 1 →
    (∃ p, last2 (solver t x sr sth).ts = some p) ∧
    (∃ q, last2 (solver t x sr sth).ys = some q)

/-- A solver is polar-event sound for the parameters `(a, lam, eta)`
when it reports a polar event only if the polar event function actually
has a root: this is how `solve_ivp` produces `t_events[0]` entries, by
root-finding on `eventTH`. -/
def THEventSound (solver : Solver) (a lam eta : ℝ) : Prop :=
  ∀ t x sr sth, (solver t x sr sth).tEventsTH ≠ [] →
    ∃ te xe sre sthe, eventTH te xe a lam eta sre sthe = 0

/- Concrete objects used by the witnesses below. -/

/-- The zero state vector. -/
def w0 : Vec5 := fun _ => 0

/-- A one-sample segment that reached the target (`status = 0`). -/
def wSolStop : SolResult :=
  { status := 0, ts := [0], ys := [w0], tEventsTH := [], tEventsR := [] }

/-- A solver whose every segment reaches the target. -/
def wSolverStop : Solver := fun _ _ _ _ => wSolStop

/-- A two-sample segment halted by the radial event (`status = 1`,
`t_events[1]` nonempty, `t_events[0]` empty). -/
def wSolEvR : SolResult :=
  { status := 1, ts := [0, 1], ys := [w0, w0], tEventsTH := [], tEventsR := [5] }

/-- A solver whose every segment halts on the radial event. -/
def wSolverEvR : Solver := fun _ _ _ _ => wSolEvR

/-- A plain start state for the loop. -/
def wState : LoopState :=
  { t := 0, x := w0, sr := 1, sth := 1, nswitch := 0, segs := [], calls := [] }

/- ------------------------------------------------------------------ -/
/- Helper lemmas.                                                      -/
/- ------------------------------------------------------------------ -/

theorem if_neg_zero_eq_max (r : ℝ) : (if r < 0 then (0 : ℝ) else r) = max r 0 := by
  rcases lt_or_le r 0 with h | h
  · simp [h, max_eq_right h.le]
  · simp [not_lt.mpr h, max_eq_left h]

theorem Rclamp_nonneg (a lam eta r : ℝ) : 0 ≤ Rclamp a lam eta r := by
  simp only [Rclamp]
  split
  · exact le_refl 0
  · next h => exact le_of_not_lt h

theorem THclamp_nonneg (a lam eta th : ℝ) : 0 ≤ THclamp a lam eta th := by
  simp only [THclamp]
  split
  · exact le_refl 0
  · next h => exact le_of_not_lt h

theorem runLoop_cap (solver : Solver) (s : LoopState) (h : 10 < s.nswitch) :
    runLoop solver s = some (appendSeg s (solver s.t s.x s.sr s.sth)) := by
  unfold runLoop
  simp [h]

theorem runLoop_done (solver : Solver) (s : LoopState) (h : ¬ 10 < s.nswitch)
    (h2 : (solver s.t s.x s.sr s.sth).status ≠ 1) :
    runLoop solver s = some (appendSeg s (solver s.t s.x s.sr s.sth)) := by
  unfold runLoop
  simp [h, h2]

theorem runLoop_cont (solver : Solver) (s : LoopState) (h : ¬ 10 < s.nswitch)
    (h2 : (solver s.t s.x s.sr s.sth).status = 1)
    (tl tp : ℝ) (yl yp : Vec5)
    (hts : last2 (solver s.t s.x s.sr s.sth).ts = some (tl, tp))
    (hys : last2 (solver s.t s.x s.sr s.sth).ys = some (yl, yp)) :
    runLoop solver s = runLoop solver (contState (solver s.t s.x s.sr s.sth) s tl tp yl yp) := by
  conv_lhs => unfold runLoop
  simp [h, h2, hts, hys]

theorem runLoop_crash (solver : Solver) (s : LoopState) (h : ¬ 10 < s.nswitch)
    (h2 : (solver s.t s.x s.sr s.sth).status = 1)
    (hfail : last2 (solver s.t s.x s.sr s.sth).ts = none ∨
      last2 (solver s.t s.x s.sr s.sth).ys = none) :
    runLoop solver s = none := by
  unfold runLoop
  rcases hfail with hf | hf
  · simp [h, h2, hf]
  · rcases h3 : last2 (solver s.t s.x s.sr s.sth).ts with _ | p
    · simp [h, h2, h3]
    · simp [h, h2, h3, hf]

theorem runLoop_total_aux (solver : Solver) (hwf : WellFormedSolver solver) :
    ∀ n (s : LoopState), 11 - s.nswitch ≤ n → s.nswitch ≤ 11 →
      ∃ s', runLoop solver s = some s' ∧ s'.nswitch ≤ 11 := by
  intro n
  induction n with
  | zero =>
      intro s hn hs
      have hcap : 10 < s.nswitch := by omega
      exact ⟨_, runLoop_cap solver s hcap, by simp only [appendSeg]; omega⟩
  | succ n ih =>
      intro s hn hs
      by_cases hcap : 10 < s.nswitch
      · exact ⟨_, runLoop_cap solver s hcap, by simp only [appendSeg]; omega⟩
      · by_cases h2 : (solver s.t s.x s.sr s.sth).status = 1
        · obtain ⟨⟨⟨tl, tp⟩, hp⟩, ⟨⟨yl, yp⟩, hq⟩⟩ := hwf s.t s.x s.sr s.sth h2
          rw [runLoop_cont solver s hcap h2 tl tp yl yp hp hq]
          exact ih (contState (solver s.t s.x s.sr s.sth) s tl tp yl yp)
            (by simp only [contState]; omega) (by simp only [contState]; omega)
        · exact ⟨_, runLoop_done solver s hcap h2, by simp only [appendSeg]; omega⟩

theorem runLoop_signs_aux (solver : Solver) :
    ∀ n (s s' : LoopState), 11 - s.nswitch ≤ n →
      runLoop solver s = some s' →
      (s.sr = 1 ∨ s.sr = -1) → (s.sth = 1 ∨ s.sth = -1) →
      (∀ c ∈ s.calls, (c.1 = 1 ∨ c.1 = -1) ∧ (c.2 = 1 ∨ c.2 = -1)) →
      (∀ c ∈ s'.calls, (c.1 = 1 ∨ c.1 = -1) ∧ (c.2 = 1 ∨ c.2 = -1)) ∧
        (s'.sr = 1 ∨ s'.sr = -1) ∧ (s'.sth = 1 ∨ s'.sth = -1) := by
  intro n
  induction n with
  | zero =>
      intro s s' hn hrun hsr hsth hcalls
      have hcap : 10 < s.nswitch := by omega
      rw [runLoop_cap solver s hcap] at hrun
      obtain rfl := Option.some.inj hrun
      refine ⟨?_, hsr, hsth⟩
      intro c hc
      simp only [appendSeg, List.mem_append, List.mem_singleton] at hc
      rcases hc with hc | rfl
      · exact hcalls c hc
      · exact ⟨hsr, hsth⟩
  | succ n ih =>
      intro s s' hn hrun hsr hsth hcalls
      by_cases hcap : 10 < s.nswitch
      · rw [runLoop_cap solver s hcap] at hrun
        obtain rfl := Option.some.inj hrun
        refine ⟨?_, hsr, hsth⟩
        intro c hc
        simp only [appendSeg, List.mem_append, List.mem_singleton] at hc
        rcases hc with hc | rfl
        · exact hcalls c hc
        · exact ⟨hsr, hsth⟩
      · by_cases h2 : (solver s.t s.x s.sr s.sth).status = 1
        · rcases hts : last2 (solver s.t s.x s.sr s.sth).ts with _ | ⟨tl, tp⟩
          · rw [runLoop_crash solver s hcap h2 (Or.inl hts)] at hrun
            exact absurd hrun (by simp)
          · rcases hys : last2 (solver s.t s.x s.sr s.sth).ys with _ | ⟨yl, yp⟩
            · rw [runLoop_crash solver s hcap h2 (Or.inr hys)] at hrun
              exact absurd hrun (by simp)
            · rw [runLoop_cont solver s hcap h2 tl tp yl yp hts hys] at hrun
              refine ih (contState (solver s.t s.x s.sr s.sth) s tl tp yl yp) s'
                (by simp only [contState]; omega) hrun ?_ ?_ ?_
              · simp only [contState]
                split
                · exact hsr
                · rcases hsr with h | h <;> simp [h]
              · simp only [contState]
                split
                · exact hsth
                · rcases hsth with h | h <;> simp [h]
              · intro c hc
                simp only [contState, List.mem_append, List.mem_singleton] at hc
                rcases hc with hc | rfl
                · exact hcalls c hc
                · exact ⟨hsr, hsth⟩
        · rw [runLoop_done solver s hcap h2] at hrun
          obtain rfl := Option.some.inj hrun
          refine ⟨?_, hsr, hsth⟩
          intro c hc
          simp only [appendSeg, List.mem_append, List.mem_singleton] at hc
          rcases hc with hc | rfl
          · exact hcalls c hc
          · exact ⟨hsr, hsth⟩

theorem runLoop_sth_const_aux (solver : Solver)
    (hTH : ∀ t x sr sth, (solver t x sr sth).tEventsTH = []) :
    ∀ n (s s' : LoopState), 11 - s.nswitch ≤ n → runLoop solver s = some s' →
      s'.sth = s.sth := by
  intro n
  induction n with
  | zero =>
      intro s s' hn hrun
      have hcap : 10 < s.nswitch := by omega
      rw [runLoop_cap solver s hcap] at hrun
      obtain rfl := Option.some.inj hrun
      rfl
  | succ n ih =>
      intro s s' hn hrun
      by_cases hcap : 10 < s.nswitch
      · rw [runLoop_cap solver s hcap] at hrun
        obtain rfl := Option.some.inj hrun
        rfl
      · by_cases h2 : (solver s.t s.x s.sr s.sth).status = 1
        · rcases hts : last2 (solver s.t s.x s.sr s.sth).ts with _ | ⟨tl, tp⟩
          · rw [runLoop_crash solver s hcap h2 (Or.inl hts)] at hrun
            exact absurd hrun (by simp)
          · rcases hys : last2 (solver s.t s.x s.sr s.sth).ys with _ | ⟨yl, yp⟩
            · rw [runLoop_crash solver s hcap h2 (Or.inr hys)] at hrun
              exact absurd hrun (by simp)
            · rw [runLoop_cont solver s hcap h2 tl tp yl yp hts hys] at hrun
              have hrec := ih (contState (solver s.t s.x s.sr s.sth) s tl tp yl yp) s'
                (by simp only [contState]; omega) hrun
              rw [hrec]
              simp only [contState]
              simp [hTH s.t s.x s.sr s.sth]
        · rw [runLoop_done solver s hcap h2] at hrun
          obtain rfl := Option.some.inj hrun
          rfl

theorem isEmpty_ite_eq_nil_ite {α β : Type} (l : List α) [Decidable (l = [])] (A B : β) :
    (if l.isEmpty then A else B) = if l = [] then A else B := by
  cases l <;> simp

theorem validate_ok_iff (a th_o : ℝ) (alpha beta : List ℝ) :
    (∃ v, raytraceValidate a th_o alpha beta = Except.ok v) ↔
      (0 ≤ a ∧ a < 1) ∧ (0 < th_o ∧ th_o ≤ Real.pi / 2) ∧
      alpha.length = beta.length ∧
      ∀ p ∈ alpha.zip beta, (p.1 ^ 2 - a ^ 2) * Real.cos th_o ^ 2 + p.2 ^ 2 ≠ 0 := by
  unfold raytraceValidate
  by_cases h1 : 0 ≤ a ∧ a < 1
  · rw [if_neg (not_not_intro h1)]
    by_cases h2 : 0 < th_o ∧ th_o ≤ Real.pi / 2
    · rw [if_neg (not_not_intro h2)]
      by_cases h3 : alpha.length = beta.length
      · rw [if_neg (not_not_intro h3)]
        by_cases h4 : ∃ e ∈ (batchLamEta a th_o alpha beta).2, e = 0
        · rw [if_pos h4]
          constructor
          · rintro ⟨v, hv⟩
            cases hv
          · rintro ⟨-, -, -, hD⟩
            obtain ⟨e, he, he0⟩ := h4
            simp only [batchLamEta] at he
            obtain ⟨p, hp, rfl⟩ := List.mem_map.mp he
            exact absurd he0 (hD p hp)
        · rw [if_neg h4]
          constructor
          · intro _
            refine ⟨h1, h2, h3, fun p hp hzero => ?_⟩
            exact h4 ⟨_, List.mem_map_of_mem _ hp, hzero⟩
          · intro _
            exact ⟨_, rfl⟩
      · rw [if_pos h3]
        constructor
        · rintro ⟨v, hv⟩
          cases hv
        · rintro ⟨-, -, hC, -⟩
          exact absurd hC h3
    · rw [if_pos h2]
      constructor
      · rintro ⟨v, hv⟩
        cases hv
      · rintro ⟨-, hB, -⟩
        exact absurd hB h2
  · rw [if_pos h1]
    constructor
    · rintro ⟨v, hv⟩
      cases hv
    · rintro ⟨hA, -⟩
      exact absurd hA h1

/-- Claim C3: for every state and parameters, `dxdtau` returns exactly
`dt/dtau` and `dphi/dtau` by the standard Kerr expressions built from
`Delta = r² - 2r + a²`, `dr/dtau = sr*sqrt(R)` and
`dtheta/dtau = sth*sqrt(TH)` with the radial and polar potentials
clamped at zero, and `dsigma/dtau = Sigma = r² + a²cos²(theta)`. -/
theorem dxdtau_components (tau : ℝ) (x : Vec5) (a lam eta sr sth : ℝ) :
    dxdtau tau x a lam eta sr sth 0 =
      (x 1 ^ 2 + a ^ 2) * (x 1 ^ 2 + a ^ 2 - a * lam) / (x 1 ^ 2 - 2 * x 1 + a ^ 2)
        + a * (lam - a * Real.sin (x 2) ^ 2) ∧
    dxdtau tau x a lam eta sr sth 1 =
      sr * Real.sqrt (max ((x 1 ^ 2 + a ^ 2 - a * lam) ^ 2
        - (x 1 ^ 2 - 2 * x 1 + a ^ 2) * (eta + (lam - a) ^ 2)) 0) ∧
    dxdtau tau x a lam eta sr sth 2 =
      sth * Real.sqrt (max (eta + (a * Real.cos (x 2)) ^ 2 - (lam / Real.tan (x 2)) ^ 2) 0) ∧
    dxdtau tau x a lam eta sr sth 3 =
      a * (x 1 ^ 2 + a ^ 2 - a * lam) / (x 1 ^ 2 - 2 * x 1 + a ^ 2)
        + lam / Real.sin (x 2) ^ 2 - a ∧
    dxdtau tau x a lam eta sr sth 4 = x 1 ^ 2 + a ^ 2 * Real.cos (x 2) ^ 2 := by
  refine ⟨rfl, ?_, ?_, rfl, rfl⟩ <;> rw [← if_neg_zero_eq_max] <;> rfl

/-- Claim C4: inside the vector field the potentials are clamped to zero
when negative, so the values actually fed to the square roots are the
clamped potentials, which are nonnegative for every input state; the
vector field is total and never takes the square root of a negative
number on account of the potentials. -/
theorem dxdtau_potentials_clamped (tau : ℝ) (x : Vec5) (a lam eta sr sth : ℝ) :
    0 ≤ Rclamp a lam eta (x 1) ∧ 0 ≤ THclamp a lam eta (x 2) ∧
    dxdtau tau x a lam eta sr sth 1 = sr * Real.sqrt (Rclamp a lam eta (x 1)) ∧
    dxdtau tau x a lam eta sr sth 2 = sth * Real.sqrt (THclamp a lam eta (x 2)) :=
  ⟨Rclamp_nonneg a lam eta (x 1), THclamp_nonneg a lam eta (x 2), rfl, rfl⟩

/-- Claim C9: in the exact Jacobian `jac`, every entry of the columns
for the coordinates `t` (column 0), `phi` (column 3) and `sigma`
(column 4) is zero, for all states and parameters. -/
theorem jac_cyclic_columns_zero (tau : ℝ) (x : Vec5) (a lam eta sr sth : ℝ) (i : Fin 5) :
    jac tau x a lam eta sr sth i 0 = 0 ∧
    jac tau x a lam eta sr sth i 3 = 0 ∧
    jac tau x a lam eta sr sth i 4 = 0 := by
  fin_cases i <;> exact ⟨rfl, rfl, rfl⟩

/-- Claim C5: the conserved-quantity mapper is the pure function
`(alpha, beta, th_o, a) ↦ (-alpha sin(th_o), (alpha²-a²)cos²(th_o)+beta²)`,
and exactly these formulas are computed at the batch boundary
(`raytrace_num`) and inside the single-ray integrator
(`integrate_geo_single`, on its possibly-nudged beta). -/
theorem conserved_mapper_consistent (alpha beta th_o a r_o aa bb taumax : ℝ)
    (alphas betas : List ℝ) (ngeo : ℕ) :
    conservedLamEta alpha beta th_o a =
      (-alpha * Real.sin th_o, (alpha ^ 2 - a ^ 2) * Real.cos th_o ^ 2 + beta ^ 2) ∧
    (batchLamEta a th_o alphas betas).1 =
      alphas.map (fun al => (conservedLamEta al 0 th_o a).1) ∧
    (batchLamEta a th_o alphas betas).2 =
      (alphas.zip betas).map (fun p => (conservedLamEta p.1 p.2 th_o a).2) ∧
    (initGeo a th_o r_o aa bb taumax ngeo).ll =
      (conservedLamEta aa (initGeo a th_o r_o aa bb taumax ngeo).bb th_o a).1 ∧
    (initGeo a th_o r_o aa bb taumax ngeo).ee =
      (conservedLamEta aa (initGeo a th_o r_o aa bb taumax ngeo).bb th_o a).2 :=
  ⟨rfl, rfl, rfl, rfl, rfl⟩

/-- Claim C6: malformed batch inputs are rejected by `raytrace_num`
before any integration executes: the batch produces a result exactly
when the spin is in [0,1), the inclination is in (0, pi/2], the alpha
and beta arrays have equal length, and no pixel's derived eta is exactly
zero; otherwise a fatal error is returned and the integrator is never
consulted (the equivalence holds for every integrator). -/
theorem raytrace_validation_iff (integrate : ℝ → ℝ → Option (List ℝ × List Vec5))
    (a th_o : ℝ) (alpha beta : List ℝ) :
    (∃ v, raytraceNum integrate a th_o alpha beta = Except.ok v) ↔
      (0 ≤ a ∧ a < 1) ∧ (0 < th_o ∧ th_o ≤ Real.pi / 2) ∧
      alpha.length = beta.length ∧
      ∀ p ∈ alpha.zip beta, (p.1 ^ 2 - a ^ 2) * Real.cos th_o ^ 2 + p.2 ^ 2 ≠ 0 := by
  rw [← validate_ok_iff a th_o alpha beta]
  unfold raytraceNum
  rcases h : raytraceValidate a th_o alpha beta with e | v
  · simp
  · simp

/-- Claim C1: whenever a solver segment halts on a terminal event
(`status == 1`) while the controller is within the switch cap, the
controller flips `sr` exactly when the radial event (`t_events[1]`)
fired, flips `sth` exactly when the polar event (`t_events[0]`) fired
(both may fire in one step), then retreats the resume state by the
fixed factor `epsilon = 1e-8` of the last step —
`t := t_now - epsilon*(t_now - t_prev)`,
`x := x_now - epsilon*(x_now - x_prev)` — before the solver is
restarted with the updated signs. -/
theorem flip_and_retreat_on_event (solver : Solver) (s : LoopState)
    (hcap : s.nswitch ≤ 10)
    (hstatus : (solver s.t s.x s.sr s.sth).status = 1)
    (tl tp : ℝ) (yl yp : Vec5)
    (hts : last2 (solver s.t s.x s.sr s.sth).ts = some (tl, tp))
    (hys : last2 (solver s.t s.x s.sr s.sth).ys = some (yl, yp)) :
    runLoop solver s = runLoop solver
      { t := tl - (1e-8 : ℝ) * (tl - tp),
        x := fun i => yl i - (1e-8 : ℝ) * (yl i - yp i),
        sr := if (solver s.t s.x s.sr s.sth).tEventsR = [] then s.sr else -s.sr,
        sth := if (solver s.t s.x s.sr s.sth).tEventsTH = [] then s.sth else -s.sth,
        nswitch := s.nswitch + 1,
        segs := s.segs ++ [((solver s.t s.x s.sr s.sth).ts, (solver s.t s.x s.sr s.sth).ys)],
        calls := s.calls ++ [(s.sr, s.sth)] } := by
  rw [runLoop_cont solver s (by omega) hstatus tl tp yl yp hts hys]
  congr 1
  simp only [contState, isEmpty_ite_eq_nil_ite]

/-- Witness for C1: a concrete segment that halts on the radial event
(`t_events[1] = [5]`, `t_events[0] = []`) with samples `t = [0, 1]`
makes the controller resume from `t = 1 - 1e-8*(1-0)` with `sr`
flipped from `1` to `-1`, `sth` unchanged, and `nswitch = 1`. -/
theorem flip_and_retreat_on_event_witness :
    runLoop wSolverEvR wState = runLoop wSolverEvR
      { t := 1 - (1e-8 : ℝ) * (1 - 0),
        x := fun i => w0 i - (1e-8 : ℝ) * (w0 i - w0 i),
        sr := -1, sth := 1, nswitch := 1,
        segs := [([0, 1], [w0, w0])], calls := [(1, 1)] } := by
  have h := flip_and_retreat_on_event wSolverEvR wState (by norm_num [wState]) rfl
    1 0 w0 w0 rfl rfl
  rw [h]
  congr 1

/-- Claim C2: for every ray and every well-formed solver, the segmented
loop terminates with at most 11 sign-flip restarts (`nswitch <= 11`, the
cap being `nswitch > 10`), and `integrate_geo_single` returns — without
raising — the trajectory accumulated so far, the per-segment arrays
concatenated in order. -/
theorem switch_cap_truncates (solver : Solver) (hwf : WellFormedSolver solver)
    (a th_o r_o aa bb taumax : ℝ) (ngeo : ℕ) :
    ∃ s', runLoop solver (initLoopState a th_o r_o aa bb taumax ngeo) = some s' ∧
      s'.nswitch ≤ 11 ∧
      integrate_geo_single solver a th_o r_o aa bb taumax ngeo =
        some ((s'.segs.map Prod.fst).flatten, (s'.segs.map Prod.snd).flatten) := by
  obtain ⟨s', h1, h2⟩ := runLoop_total_aux solver hwf 11
    (initLoopState a th_o r_o aa bb taumax ngeo)
    (by simp [initLoopState]) (by simp [initLoopState])
  refine ⟨s', h1, h2, ?_⟩
  unfold integrate_geo_single
  rw [h1]

/-- Witness for C2: with a solver whose segments always reach the
target, the loop on a concrete ray terminates within the switch cap and
returns the concatenated trajectory. -/
theorem switch_cap_truncates_witness :
    ∃ s', runLoop wSolverStop (initLoopState 0 1 1000 0 0 1 100) = some s' ∧
      s'.nswitch ≤ 11 ∧
      integrate_geo_single wSolverStop 0 1 1000 0 0 1 100 =
        some ((s'.segs.map Prod.fst).flatten, (s'.segs.map Prod.snd).flatten) :=
  switch_cap_truncates wSolverStop
    (fun t x sr sth h => absurd h (by simp [wSolverStop, wSolStop]))
    0 1 1000 0 0 1 100

/-- Counterexample to claim C7 as stated: the claim asserts every
degenerate beta (magnitude below the threshold 1e-6) is nudged to a
small nonzero magnitude, but at the equatorial inclination
`th_o = pi/2` the source's nudge condition
`np.abs(bb)<1.e-6 and th_o!=np.pi/2.` is false, so `beta = 0` is left
exactly zero. -/
theorem beta_nudge_not_universal :
    |(0 : ℝ)| < 1e-6 ∧ (initGeo 0 (Real.pi / 2) 1000 0 0 1 100).bb = 0 := by
  constructor
  · norm_num
  · simp [initGeo]

/-- Claim C7 (amended): at ray initialization `sr = +1` unconditionally,
`sth = sign(beta)` with default `+1` when `beta == 0`, a degenerate beta
(|beta| < 1e-6) is nudged to the nonzero value `sth * 1e-6` of the
chosen sign — but only when `th_o ≠ pi/2` — and the integration starts
from the state `(0, r_o, th_o, 0, 0)` at `tau = 0`. -/
theorem init_characterization (a th_o r_o aa bb taumax : ℝ) (ngeo : ℕ) :
    (initGeo a th_o r_o aa bb taumax ngeo).sr = 1 ∧
    (initGeo a th_o r_o aa bb taumax ngeo).sth = (if bb < 0 then -1 else 1) ∧
    (initGeo a th_o r_o aa bb taumax ngeo).bb =
      (if |bb| < 1e-6 ∧ th_o ≠ Real.pi / 2 then
        (Int.cast (if bb < 0 then (-1 : ℤ) else 1) : ℝ) * 1e-6 else bb) ∧
    (initGeo a th_o r_o aa bb taumax ngeo).x0 = ![0, r_o, th_o, 0, 0] ∧
    (initGeo a th_o r_o aa bb taumax ngeo).t0 = 0 := by
  have hsth : (initGeo a th_o r_o aa bb taumax ngeo).sth = (if bb < 0 then -1 else 1) := by
    simp only [initGeo]
    rcases lt_trichotomy bb 0 with h | h | h
    · simp [h, not_lt.mpr h.le]
    · simp [h]
    · simp [h, not_lt.mpr h.le, asymm h]
  refine ⟨rfl, hsth, ?_, rfl, rfl⟩
  by_cases hcond : |bb| < 1e-6 ∧ th_o ≠ Real.pi / 2
  · rw [if_pos hcond, ← hsth]
    simp only [initGeo]
    rw [if_pos hcond]
  · rw [if_neg hcond]
    simp only [initGeo]
    rw [if_neg hcond]

/-- Claim C8: when `a < MINSPIN` and `eta < EP`, the polar event
function `eventTH` returns the fixed nonzero constant 1 instead of the
polar potential, so for every solver that reports polar events only at
actual roots of `eventTH` the polar event never triggers and no polar
sign flip occurs over a full integration: the final `sth` equals the
initial `sth`. -/
theorem eventTH_override_no_polar_flip (a lam eta : ℝ)
    (ha : a < MINSPIN) (he : eta < EP)
    (solver : Solver) (hsound : THEventSound solver a lam eta)
    (s s' : LoopState) (hrun : runLoop solver s = some s') :
    (∀ t x sr sth, eventTH t x a lam eta sr sth = 1) ∧ s'.sth = s.sth := by
  have hover : ∀ t x sr sth, eventTH t x a lam eta sr sth = 1 := by
    intro t x sr sth
    simp [eventTH, ha, he]
  refine ⟨hover, ?_⟩
  have hTH : ∀ t x sr sth, (solver t x sr sth).tEventsTH = [] := by
    intro t x sr sth
    by_contra hne
    obtain ⟨te, xe, sre, sthe, h0⟩ := hsound t x sr sth hne
    rw [hover te xe sre sthe] at h0
    norm_num at h0
  exact runLoop_sth_const_aux solver hTH (11 - s.nswitch) s s' le_rfl hrun

/-- Witness for C8: at `a = 0`, `lam = 0`, `eta = 0` (below `MINSPIN`
and `EP`), with a solver that reports no events, one full loop run
leaves `sth` unchanged, and the overridden event value is 1. -/
theorem eventTH_override_no_polar_flip_witness :
    (0 : ℝ) < MINSPIN ∧ (0 : ℝ) < EP ∧
    eventTH 0 w0 0 0 0 1 1 = 1 ∧
    (appendSeg wState wSolStop).sth = wState.sth := by
  have hrun : runLoop wSolverStop wState = some (appendSeg wState wSolStop) :=
    runLoop_done wSolverStop wState (by norm_num [wState]) (by simp [wSolverStop, wSolStop])
  have h := eventTH_override_no_polar_flip 0 0 0 (by norm_num [MINSPIN])
    (by norm_num [EP]) wSolverStop (fun t x sr sth hne => absurd rfl hne)
    wState (appendSeg wState wSolStop) hrun
  exact ⟨by norm_num [MINSPIN], by norm_num [EP], h.1 0 w0 1 1, h.2⟩

/-- Claim C10: the motion-direction signs are an invariant of the
control loop: at initialization `sr = +1` and `sth ∈ {-1,+1}`, and every
solver call the controller makes (the `calls` trace) receives
`sr, sth ∈ {-1,+1}`, each flip only negating a sign; the final signs are
also in `{-1,+1}`. -/
theorem signs_pm_one_invariant (solver : Solver) (a th_o r_o aa bb taumax : ℝ)
    (ngeo : ℕ) (s' : LoopState)
    (hrun : runLoop solver (initLoopState a th_o r_o aa bb taumax ngeo) = some s') :
    (initLoopState a th_o r_o aa bb taumax ngeo).sr = 1 ∧
    ((initLoopState a th_o r_o aa bb taumax ngeo).sth = 1 ∨
      (initLoopState a th_o r_o aa bb taumax ngeo).sth = -1) ∧
    (∀ c ∈ s'.calls, (c.1 = 1 ∨ c.1 = -1) ∧ (c.2 = 1 ∨ c.2 = -1)) ∧
    (s'.sr = 1 ∨ s'.sr = -1) ∧ (s'.sth = 1 ∨ s'.sth = -1) := by
  have hsr : (initLoopState a th_o r_o aa bb taumax ngeo).sr = 1 := rfl
  have hsth : (initLoopState a th_o r_o aa bb taumax ngeo).sth = 1 ∨
      (initLoopState a th_o r_o aa bb taumax ngeo).sth = -1 := by
    simp only [initLoopState, initGeo]
    rcases lt_trichotomy bb 0 with h | h | h
    · simp [h, not_lt.mpr h.le]
    · simp [h]
    · simp [h, not_lt.mpr h.le, asymm h]
  have hmain := runLoop_signs_aux solver
    (11 - (initLoopState a th_o r_o aa bb taumax ngeo).nswitch)
    (initLoopState a th_o r_o aa bb taumax ngeo) s' le_rfl hrun
    (Or.inl hsr) hsth (by intro c hc; simp [initLoopState] at hc)
  exact ⟨hsr, hsth, hmain.1, hmain.2.1, hmain.2.2⟩

/-- Witness for C10: a concrete full run (solver always reaches the
target, ray `beta = -2`) in which the single recorded solver call
received `(sr, sth) = (1, -1)`, both in `{-1,+1}`. -/
theorem signs_pm_one_invariant_witness :
    (initLoopState 0 1 1000 0 (-2) 1 100).sr = 1 ∧
    ((initLoopState 0 1 1000 0 (-2) 1 100).sth = 1 ∨
      (initLoopState 0 1 1000 0 (-2) 1 100).sth = -1) ∧
    (∀ c ∈ (appendSeg (initLoopState 0 1 1000 0 (-2) 1 100) wSolStop).calls,
      (c.1 = 1 ∨ c.1 = -1) ∧ (c.2 = 1 ∨ c.2 = -1)) ∧
    ((appendSeg (initLoopState 0 1 1000 0 (-2) 1 100) wSolStop).sr = 1 ∨
      (appendSeg (initLoopState 0 1 1000 0 (-2) 1 100) wSolStop).sr = -1) ∧
    ((appendSeg (initLoopState 0 1 1000 0 (-2) 1 100) wSolStop).sth = 1 ∨
      (appendSeg (initLoopState 0 1 1000 0 (-2) 1 100) wSolStop).sth = -1) := by
  have hrun : runLoop wSolverStop (initLoopState 0 1 1000 0 (-2) 1 100) =
      some (appendSeg (initLoopState 0 1 1000 0 (-2) 1 100) wSolStop) :=
    runLoop_done wSolverStop (initLoopState 0 1 1000 0 (-2) 1 100)
      (by simp [initLoopState]) (by simp [wSolverStop, wSolStop])
  exact signs_pm_one_invariant wSolverStop 0 1 1000 0 (-2) 1 100
    (appendSeg (initLoopState 0 1 1000 0 (-2) 1 100) wSolStop) hrun
